import Mathlib

/-!
Verification development for the RivetQ task-queue core.

The definitions below are a shallow embedding of the Go sources:
* `RivetQ.Wal` — the WAL record codec (`Record.Marshal` / `Record.Unmarshal`
  in `internal/wal/record.go`), the segment frame reader
  (`SegmentReader.Read` in `internal/wal/segment.go`), the CRC-32C checksum
  (`internal/util/checksum.go`) and `WAL.Replay` (`internal/wal/wal.go`).
  Bytes are modelled as `Nat` (kept < 256 by construction), Go strings and
  byte slices as `List Nat`, Go maps as association lists in a fixed
  iteration order, and `time.Time` as the `Int` of unix nanoseconds.
* `RivetQ.Queue` — the job model (`internal/queue/job.go`), the binary-heap
  priority queue (`internal/queue/priority_queue.go`, including the
  `container/heap` sift algorithms), and the queue-manager logic
  (`internal/queue/queue.go`): WAL replay, nack, the lease-timeout
  reclaimer and enqueue.  Stateful Go code is modelled by explicit state
  passing; machine integers are `Nat` with `% 2^w` where overflow matters;
  the wall clock, random lease ids and the jittered backoff delay are
  passed in as explicit parameters.
-/

namespace RivetQ
namespace Wal

/-- Little-endian encoding of a 16-bit value (`binary.LittleEndian.PutUint16`
applied to `uint16(n)`; the truncation `n % 2^16` is performed by the byte
extraction itself). -/
def u16le (n : Nat) : List Nat := [n % 256, n / 256 % 256]

/-- Little-endian encoding of a 32-bit value (`binary.LittleEndian.PutUint32`). -/
def u32le (n : Nat) : List Nat :=
  [n % 256, n / 256 % 256, n / 65536 % 256, n / 16777216 % 256]

/-- Little-endian encoding of a 64-bit value (`binary.LittleEndian.PutUint64`). -/
def u64le (n : Nat) : List Nat :=
  [n % 256, n / 256 % 256, n / 65536 % 256, n / 16777216 % 256,
   n / 4294967296 % 256, n / 1099511627776 % 256,
   n / 281474976710656 % 256, n / 72057594037927936 % 256]

/-- Value of a little-endian byte string (first byte least significant),
as computed by `binary.LittleEndian.Uint16/Uint32/Uint64`. -/
def leVal (bs : List Nat) : Nat := bs.foldr (fun b acc => b + 256 * acc) 0

/-- A WAL record (`wal.Record` in `record.go`), at byte level: Go strings and
the payload are byte lists, the `Headers` map is an association list in its
iteration order, and `ETA` (a `time.Time`) is the `Int` of unix nanoseconds. -/
structure Record where
  type : Nat
  queue : List Nat
  jobID : List Nat
  payload : List Nat
  headers : List (List Nat × List Nat)
  priority : Nat
  tries : Nat
  maxRetries : Nat
  eta : Int
  leaseID : List Nat
  reason : List Nat
  deriving DecidableEq, Repr

/-- `time.Time.UnixMilli`: floor division of the unix-nanosecond instant by 10^6
(Go computes `sec*1000 + nsec/1e6` with `0 ≤ nsec < 1e9`, which is the floor). -/
def unixMilli (eta : Int) : Int := Int.fdiv eta 1000000

/-- `time.UnixMilli ms`: the instant at exactly `ms` unix milliseconds. -/
def ofUnixMilli (ms : Int) : Int := ms * 1000000

/-- The `uint64(etaMs)` bit cast of an `int64` value, as a natural number. -/
def int64ToU64 (i : Int) : Nat := (i % (18446744073709551616 : Int)).toNat

/-- The `int64(u)` bit cast of a `uint64` value. -/
def u64ToInt64 (u : Nat) : Int :=
  if u < 9223372036854775808 then (u : Int) else (u : Int) - 18446744073709551616

/-- Serialized headers: for each key/value pair a 16-bit length prefix followed
by the bytes, in map-iteration order (`Record.Marshal`'s `for k, v := range`). -/
def encHeaders (hs : List (List Nat × List Nat)) : List Nat :=
  hs.foldr (fun kv acc => u16le kv.1.length ++ kv.1 ++ u16le kv.2.length ++ kv.2 ++ acc) []

/-- `Record.Marshal` (`record.go`): type byte, then length-prefixed queue and
job id, priority byte, 32-bit tries and max-retries, 64-bit ETA in unix
milliseconds, length-prefixed payload, header count and headers, and
length-prefixed lease id and reason.  All length prefixes truncate exactly as
Go's `uint16(len(...))` / `uint32(len(...))` casts do, while the full byte
string is still copied — faithfully reproducing the overflow behaviour. -/
def Record.marshal (r : Record) : List Nat :=
  [r.type % 256] ++
  u16le r.queue.length ++ r.queue ++
  u16le r.jobID.length ++ r.jobID ++
  [r.priority % 256] ++
  u32le r.tries ++
  u32le r.maxRetries ++
  u64le (int64ToU64 (unixMilli r.eta)) ++
  u32le r.payload.length ++ r.payload ++
  u16le r.headers.length ++ encHeaders r.headers ++
  u16le r.leaseID.length ++ r.leaseID ++
  u16le r.reason.length ++ r.reason

/-- Read `k` bytes; Go's `offset+k > len(data)` truncation check. -/
def readN (k : Nat) (bs : List Nat) : Option (List Nat × List Nat) :=
  if k ≤ bs.length then some (bs.take k, bs.drop k) else none

/-- Read one byte. -/
def parseU8 (bs : List Nat) : Option (Nat × List Nat) :=
  match bs with
  | [] => none
  | b :: r => some (b, r)

/-- Read a little-endian 16-bit value. -/
def parseU16 (bs : List Nat) : Option (Nat × List Nat) :=
  (readN 2 bs).map fun p => (leVal p.1, p.2)

/-- Read a little-endian 32-bit value. -/
def parseU32 (bs : List Nat) : Option (Nat × List Nat) :=
  (readN 4 bs).map fun p => (leVal p.1, p.2)

/-- Read a little-endian 64-bit value. -/
def parseU64 (bs : List Nat) : Option (Nat × List Nat) :=
  (readN 8 bs).map fun p => (leVal p.1, p.2)

/-- Read a 16-bit length prefix followed by that many bytes. -/
def parseLen16 (bs : List Nat) : Option (List Nat × List Nat) :=
  (parseU16 bs).bind fun p => readN p.1 p.2

/-- Read a 32-bit length prefix followed by that many bytes. -/
def parseLen32 (bs : List Nat) : Option (List Nat × List Nat) :=
  (parseU32 bs).bind fun p => readN p.1 p.2

/-- Read `count` header key/value pairs (`Record.Unmarshal`'s headers loop);
pairs are collected in read order, modelling the successive
`r.Headers[key] = val` map inserts. -/
def parseHeaders : Nat → List Nat → Option (List (List Nat × List Nat) × List Nat)
  | 0, bs => some ([], bs)
  | n + 1, bs =>
    (parseLen16 bs).bind fun k =>
    (parseLen16 k.2).bind fun v =>
    (parseHeaders n v.2).map fun rest => ((k.1, v.1) :: rest.1, rest.2)

/-- `Record.Unmarshal` (`record.go`), with the unconsumed suffix returned:
each field is read in order with Go's bounds checks; the leading type byte is
stored without validation, exactly as `r.Type = RecordType(data[offset])` does. -/
def unmarshalRest (bs : List Nat) : Option (Record × List Nat) :=
  (parseU8 bs).bind fun t =>
  (parseLen16 t.2).bind fun q =>
  (parseLen16 q.2).bind fun j =>
  (parseU8 j.2).bind fun p =>
  (parseU32 p.2).bind fun tr =>
  (parseU32 tr.2).bind fun mr =>
  (parseU64 mr.2).bind fun eu =>
  (parseLen32 eu.2).bind fun pl =>
  (parseU16 pl.2).bind fun hc =>
  (parseHeaders hc.1 hc.2).bind fun hs =>
  (parseLen16 hs.2).bind fun li =>
  (parseLen16 li.2).map fun re =>
  ({ type := t.1, queue := q.1, jobID := j.1, payload := pl.1,
     headers := hs.1, priority := p.1, tries := tr.1, maxRetries := mr.1,
     eta := ofUnixMilli (u64ToInt64 eu.1), leaseID := li.1, reason := re.1 }, re.2)

/-- `Record.Unmarshal`: parse failure is Go's `ErrInvalidRecord`. -/
def Record.unmarshal (bs : List Nat) : Option Record :=
  (unmarshalRest bs).map Prod.fst

/-- The record type constants of `record.go`
(`RecordTypeEnqueue = 1` … `RecordTypeTombstone = 5`). -/
def knownRecordTypes : List Nat := [1, 2, 3, 4, 5]

/-- Well-formedness of a record as the Go struct maintains it: the type and
priority are single bytes, tries/max-retries are 32-bit, every length fits its
length prefix, header keys are distinct (it is a Go map), and the ETA is a
whole-millisecond instant whose millisecond value fits in an `int64`. -/
structure Record.WF (r : Record) : Prop where
  type_lt : r.type < 256
  priority_lt : r.priority < 256
  tries_lt : r.tries < 4294967296
  maxRetries_lt : r.maxRetries < 4294967296
  queue_lt : r.queue.length < 65536
  jobID_lt : r.jobID.length < 65536
  leaseID_lt : r.leaseID.length < 65536
  reason_lt : r.reason.length < 65536
  payload_lt : r.payload.length < 4294967296
  headers_lt : r.headers.length < 65536
  header_fields_lt : ∀ kv ∈ r.headers, kv.1.length < 65536 ∧ kv.2.length < 65536
  header_keys_nodup : (r.headers.map Prod.fst).Nodup
  eta_ms : (1000000 : Int) ∣ r.eta
  eta_lower : -(9223372036854775808 : Int) * 1000000 ≤ r.eta
  eta_upper : r.eta < (9223372036854775808 : Int) * 1000000

theorem leVal_u16le (n : Nat) (h : n < 65536) : leVal (u16le n) = n := by
  simp [leVal, u16le]; omega

theorem leVal_u32le (n : Nat) (h : n < 4294967296) : leVal (u32le n) = n := by
  simp [leVal, u32le]; omega

theorem leVal_u64le (n : Nat) (h : n < 18446744073709551616) : leVal (u64le n) = n := by
  simp [leVal, u64le]; omega

theorem u16le_length (n : Nat) : (u16le n).length = 2 := rfl

theorem u32le_length (n : Nat) : (u32le n).length = 4 := rfl

theorem u64le_length (n : Nat) : (u64le n).length = 8 := rfl

theorem readN_exact (l rest : List Nat) : readN l.length (l ++ rest) = some (l, rest) := by
  simp [readN]

theorem parseU8_cons (b : Nat) (rest : List Nat) : parseU8 (b :: rest) = some (b, rest) := rfl

theorem parseU16_append (n : Nat) (rest : List Nat) (h : n < 65536) :
    parseU16 (u16le n ++ rest) = some (n, rest) := by
  have h2 : readN 2 (u16le n ++ rest) = some (u16le n, rest) := by
    simpa [u16le_length] using readN_exact (u16le n) rest
  simp [parseU16, h2, leVal_u16le n h]

theorem parseU32_append (n : Nat) (rest : List Nat) (h : n < 4294967296) :
    parseU32 (u32le n ++ rest) = some (n, rest) := by
  have h4 : readN 4 (u32le n ++ rest) = some (u32le n, rest) := by
    simpa [u32le_length] using readN_exact (u32le n) rest
  simp [parseU32, h4, leVal_u32le n h]

theorem parseU64_append (n : Nat) (rest : List Nat) (h : n < 18446744073709551616) :
    parseU64 (u64le n ++ rest) = some (n, rest) := by
  have h8 : readN 8 (u64le n ++ rest) = some (u64le n, rest) := by
    simpa [u64le_length] using readN_exact (u64le n) rest
  simp [parseU64, h8, leVal_u64le n h]

theorem parseLen16_append (l rest : List Nat) (h : l.length < 65536) :
    parseLen16 (u16le l.length ++ (l ++ rest)) = some (l, rest) := by
  simp [parseLen16, parseU16_append l.length (l ++ rest) h, readN_exact]

theorem parseLen32_append (l rest : List Nat) (h : l.length < 4294967296) :
    parseLen32 (u32le l.length ++ (l ++ rest)) = some (l, rest) := by
  simp [parseLen32, parseU32_append l.length (l ++ rest) h, readN_exact]

theorem encHeaders_cons (k v : List Nat) (hs : List (List Nat × List Nat)) :
    encHeaders ((k, v) :: hs) =
      u16le k.length ++ (k ++ (u16le v.length ++ (v ++ encHeaders hs))) := by
  simp [encHeaders]

theorem parseHeaders_append (hs : List (List Nat × List Nat)) (rest : List Nat)
    (h : ∀ kv ∈ hs, kv.1.length < 65536 ∧ kv.2.length < 65536) :
    parseHeaders hs.length (encHeaders hs ++ rest) = some (hs, rest) := by
  induction hs with
  | nil => simp [parseHeaders, encHeaders]
  | cons kv hs ih =>
    have hk := (h kv (List.mem_cons_self kv hs)).1
    have hv := (h kv (List.mem_cons_self kv hs)).2
    have ih2 := ih fun x hx => h x (List.mem_cons_of_mem kv hx)
    obtain ⟨k, v⟩ := kv
    simp only [List.length_cons, parseHeaders, encHeaders_cons, List.append_assoc]
    rw [parseLen16_append k _ hk]
    simp only [Option.some_bind]
    rw [parseLen16_append v _ hv]
    simp only [Option.some_bind]
    rw [ih2]
    rfl

theorem int64_roundtrip (m : Int) (hlo : -9223372036854775808 ≤ m)
    (hhi : m < 9223372036854775808) : u64ToInt64 (int64ToU64 m) = m := by
  simp only [int64ToU64, u64ToInt64]
  split <;> omega

theorem eta_roundtrip (eta : Int) (hdvd : (1000000 : Int) ∣ eta)
    (hlo : -(9223372036854775808 : Int) * 1000000 ≤ eta)
    (hhi : eta < (9223372036854775808 : Int) * 1000000) :
    ofUnixMilli (u64ToInt64 (int64ToU64 (unixMilli eta))) = eta := by
  obtain ⟨m, rfl⟩ := hdvd
  have hm : unixMilli (1000000 * m) = m := by
    simp [unixMilli, Int.mul_fdiv_cancel_left _ (by norm_num : (1000000 : Int) ≠ 0)]
  rw [hm, int64_roundtrip m (by nlinarith) (by nlinarith)]
  simp [ofUnixMilli, mul_comm]

theorem int64ToU64_lt (m : Int) : int64ToU64 m < 18446744073709551616 := by
  simp only [int64ToU64]
  omega

set_option maxHeartbeats 2000000 in
theorem unmarshalRest_marshal (r : Record) (h : r.WF) (extra : List Nat) :
    unmarshalRest (r.marshal ++ extra) = some (r, extra) := by
  simp only [Record.marshal, List.append_assoc, List.cons_append, List.singleton_append,
    List.nil_append]
  rw [Nat.mod_eq_of_lt h.type_lt, Nat.mod_eq_of_lt h.priority_lt]
  simp only [unmarshalRest]
  rw [parseU8_cons]
  simp only [Option.some_bind]
  rw [parseLen16_append _ _ h.queue_lt]
  simp only [Option.some_bind]
  rw [parseLen16_append _ _ h.jobID_lt]
  simp only [Option.some_bind]
  rw [parseU8_cons]
  simp only [Option.some_bind]
  rw [parseU32_append _ _ h.tries_lt]
  simp only [Option.some_bind]
  rw [parseU32_append _ _ h.maxRetries_lt]
  simp only [Option.some_bind]
  rw [parseU64_append _ _ (int64ToU64_lt _)]
  simp only [Option.some_bind]
  rw [parseLen32_append _ _ h.payload_lt]
  simp only [Option.some_bind]
  rw [parseU16_append _ _ h.headers_lt]
  simp only [Option.some_bind]
  rw [parseHeaders_append _ _ h.header_fields_lt]
  simp only [Option.some_bind]
  rw [parseLen16_append _ _ h.leaseID_lt]
  simp only [Option.some_bind]
  rw [parseLen16_append _ _ h.reason_lt]
  simp only [Option.map_some']
  rw [eta_roundtrip r.eta h.eta_ms h.eta_lower h.eta_upper]

theorem unmarshalRest_marshal_nil (r : Record) (h : r.WF) :
    unmarshalRest r.marshal = some (r, []) := by
  simpa using unmarshalRest_marshal r h []

theorem readN_ext (k : Nat) (bs ys : List Nat) (v : List Nat × List Nat)
    (h : readN k bs = some v) : readN k (bs ++ ys) = some (v.1, v.2 ++ ys) := by
  simp only [readN] at h ⊢
  split at h
  · cases h
    have hk : k ≤ bs.length := by assumption
    simp only [List.length_append, List.take_append_eq_append_take,
      List.drop_append_eq_append_drop]
    rw [if_pos (by omega)]
    have h1 : k - bs.length = 0 := by omega
    simp [h1]
  · cases h

theorem parseU8_ext (bs ys : List Nat) (v : Nat × List Nat)
    (h : parseU8 bs = some v) : parseU8 (bs ++ ys) = some (v.1, v.2 ++ ys) := by
  cases bs with
  | nil => simp [parseU8] at h
  | cons b r =>
    simp only [parseU8] at h
    cases h
    rfl

theorem parseU16_ext (bs ys : List Nat) (v : Nat × List Nat)
    (h : parseU16 bs = some v) : parseU16 (bs ++ ys) = some (v.1, v.2 ++ ys) := by
  simp only [parseU16, Option.map_eq_some'] at h
  obtain ⟨p, hp, hv⟩ := h
  simp [parseU16, readN_ext 2 bs ys p hp, ← hv]

theorem parseU32_ext (bs ys : List Nat) (v : Nat × List Nat)
    (h : parseU32 bs = some v) : parseU32 (bs ++ ys) = some (v.1, v.2 ++ ys) := by
  simp only [parseU32, Option.map_eq_some'] at h
  obtain ⟨p, hp, hv⟩ := h
  simp [parseU32, readN_ext 4 bs ys p hp, ← hv]

theorem parseU64_ext (bs ys : List Nat) (v : Nat × List Nat)
    (h : parseU64 bs = some v) : parseU64 (bs ++ ys) = some (v.1, v.2 ++ ys) := by
  simp only [parseU64, Option.map_eq_some'] at h
  obtain ⟨p, hp, hv⟩ := h
  simp [parseU64, readN_ext 8 bs ys p hp, ← hv]

theorem parseLen16_ext (bs ys : List Nat) (v : List Nat × List Nat)
    (h : parseLen16 bs = some v) : parseLen16 (bs ++ ys) = some (v.1, v.2 ++ ys) := by
  simp only [parseLen16, Option.bind_eq_some] at h
  obtain ⟨p, hp, hv⟩ := h
  simp [parseLen16, parseU16_ext bs ys p hp, readN_ext p.1 p.2 ys v hv]

theorem parseLen32_ext (bs ys : List Nat) (v : List Nat × List Nat)
    (h : parseLen32 bs = some v) : parseLen32 (bs ++ ys) = some (v.1, v.2 ++ ys) := by
  simp only [parseLen32, Option.bind_eq_some] at h
  obtain ⟨p, hp, hv⟩ := h
  simp [parseLen32, parseU32_ext bs ys p hp, readN_ext p.1 p.2 ys v hv]

theorem parseHeaders_ext (n : Nat) (bs ys : List Nat)
    (v : List (List Nat × List Nat) × List Nat) (h : parseHeaders n bs = some v) :
    parseHeaders n (bs ++ ys) = some (v.1, v.2 ++ ys) := by
  induction n generalizing bs v with
  | zero =>
    simp only [parseHeaders] at h
    cases h
    rfl
  | succ n ih =>
    simp only [parseHeaders, Option.bind_eq_some, Option.map_eq_some'] at h
    obtain ⟨k, hk, vv, hvv, rest, hrest, hv⟩ := h
    simp only [parseHeaders]
    rw [parseLen16_ext bs ys k hk]
    simp only [Option.some_bind]
    rw [parseLen16_ext k.2 ys vv hvv]
    simp only [Option.some_bind]
    rw [ih vv.2 rest hrest]
    simp only [Option.map_some']
    simp [← hv]

set_option maxHeartbeats 2000000 in
theorem unmarshalRest_ext (bs ys : List Nat) (v : Record × List Nat)
    (h : unmarshalRest bs = some v) :
    unmarshalRest (bs ++ ys) = some (v.1, v.2 ++ ys) := by
  simp only [unmarshalRest, Option.bind_eq_some, Option.map_eq_some'] at h
  obtain ⟨t, ht, q, hq, j, hj, p, hp, tr, htr, mr, hmr, eu, heu, pl, hpl, hc, hhc,
    hs, hhs, li, hli, re, hre, hv⟩ := h
  simp only [unmarshalRest]
  rw [parseU8_ext bs ys t ht]
  simp only [Option.some_bind]
  rw [parseLen16_ext t.2 ys q hq]
  simp only [Option.some_bind]
  rw [parseLen16_ext q.2 ys j hj]
  simp only [Option.some_bind]
  rw [parseU8_ext j.2 ys p hp]
  simp only [Option.some_bind]
  rw [parseU32_ext p.2 ys tr htr]
  simp only [Option.some_bind]
  rw [parseU32_ext tr.2 ys mr hmr]
  simp only [Option.some_bind]
  rw [parseU64_ext mr.2 ys eu heu]
  simp only [Option.some_bind]
  rw [parseLen32_ext eu.2 ys pl hpl]
  simp only [Option.some_bind]
  rw [parseU16_ext pl.2 ys hc hhc]
  simp only [Option.some_bind]
  rw [parseHeaders_ext hc.1 hc.2 ys hs hhs]
  simp only [Option.some_bind]
  rw [parseLen16_ext hs.2 ys li hli]
  simp only [Option.some_bind]
  rw [parseLen16_ext li.2 ys re hre]
  simp only [Option.map_some']
  simp [← hv]

theorem unmarshal_take_none (r : Record) (h : r.WF) (m : Nat)
    (hm : m < r.marshal.length) : Record.unmarshal (r.marshal.take m) = none := by
  unfold Record.unmarshal
  cases hopt : unmarshalRest (r.marshal.take m) with
  | none => rfl
  | some pr =>
    exfalso
    have hext := unmarshalRest_ext (r.marshal.take m) (r.marshal.drop m) pr hopt
    rw [List.take_append_drop] at hext
    rw [unmarshalRest_marshal_nil r h] at hext
    have h2 : ([] : List Nat) = pr.2 ++ r.marshal.drop m := congrArg Prod.snd (Option.some.inj hext)
    have h3 : r.marshal.drop m = [] := by
      cases hdrop : r.marshal.drop m with
      | nil => rfl
      | cons a l =>
        rw [hdrop] at h2
        simp at h2
    have h4 := List.drop_eq_nil_iff.mp h3
    omega

theorem unmarshal_marshal_of_wf_aux (r : Record) (h : r.WF) :
    Record.unmarshal r.marshal = some r := by
  simp [Record.unmarshal, unmarshalRest_marshal_nil r h]

/-- Record whose ETA is one nanosecond past the epoch: a valid `time.Time`
value that is not on a millisecond boundary. -/
def subMsRecord : Record :=
  { type := 1, queue := [], jobID := [], payload := [], headers := [],
    priority := 0, tries := 0, maxRetries := 0, eta := 1, leaseID := [], reason := [] }

/-- Record used as a concrete well-formed witness input. -/
def sampleRecord : Record :=
  { type := 3, queue := [113, 117], jobID := [106, 49], payload := [10, 20, 30],
    headers := [([104], [118]), ([105], [119])], priority := 7, tries := 2,
    maxRetries := 5, eta := 123000000, leaseID := [108, 116], reason := [114] }

theorem sampleRecord_wf : sampleRecord.WF := by
  refine ⟨?_, ?_, ?_, ?_, ?_, ?_, ?_, ?_, ?_, ?_, ?_, ?_, ⟨123, by decide⟩, ?_, ?_⟩ <;> decide

/-- C6 (counterexample). `Marshal` stores the ETA as whole unix milliseconds
(`UnixMilli`), so a record whose `time.Time` ETA has a sub-millisecond
component does not survive the round trip: deserializing the serialized bytes
of `subMsRecord` (ETA = 1 ns) yields a record with ETA 0, not the original. -/
theorem unmarshal_marshal_ne_of_sub_ms :
    Record.unmarshal subMsRecord.marshal ≠ some subMsRecord := by decide

/-- C6 (amended). For every well-formed record — field lengths that fit their
length prefixes, 8-bit type/priority, 32-bit counters, and an ETA on a
millisecond boundary within the `int64` millisecond range — deserializing the
serialized bytes yields the record back: `decode(encode(r)) = r`. -/
theorem unmarshal_marshal_eq_of_wf (r : Record) (h : r.WF) :
    Record.unmarshal r.marshal = some r :=
  unmarshal_marshal_of_wf_aux r h

/-- Witness for `unmarshal_marshal_eq_of_wf` at a concrete record. -/
theorem unmarshal_marshal_eq_of_wf_witness :
    Record.unmarshal sampleRecord.marshal = some sampleRecord :=
  unmarshal_marshal_eq_of_wf sampleRecord sampleRecord_wf

/-- Record with an unknown leading type byte (99 is none of the five record
types declared in `record.go`). -/
def unknownTypeRecord : Record :=
  { type := 99, queue := [], jobID := [], payload := [], headers := [],
    priority := 0, tries := 0, maxRetries := 0, eta := 0, leaseID := [], reason := [] }

/-- C7 (counterexample). `Record.Unmarshal` stores the leading type byte
without validating it (`r.Type = RecordType(data[0])`): a byte string whose
type byte is 99 — not one of the five known record types — parses
successfully, contradicting the claim that parsing never returns success for
an unknown type byte. -/
theorem unmarshal_accepts_unknown_type :
    Record.unmarshal unknownTypeRecord.marshal = some unknownTypeRecord ∧
    unknownTypeRecord.marshal.head? = some 99 ∧
    unknownTypeRecord.type ∉ knownRecordTypes := by decide

/-- C7 (amended). Parsing fails (Go's `ErrInvalidRecord`) on every strict
prefix of a well-formed record's serialization, but the leading type byte is
not validated: replacing the type byte by any byte value whatsoever still
parses successfully. -/
theorem unmarshal_truncation_fails_type_unchecked (r : Record) (h : r.WF) :
    (∀ m, m < r.marshal.length → Record.unmarshal (r.marshal.take m) = none) ∧
    (∀ t, t < 256 →
      Record.unmarshal (Record.marshal { r with type := t }) = some { r with type := t }) := by
  constructor
  · intro m hm
    exact unmarshal_take_none r h m hm
  · intro t ht
    exact unmarshal_marshal_of_wf_aux { r with type := t }
      ⟨ht, h.priority_lt, h.tries_lt, h.maxRetries_lt, h.queue_lt, h.jobID_lt,
       h.leaseID_lt, h.reason_lt, h.payload_lt, h.headers_lt, h.header_fields_lt,
       h.header_keys_nodup, h.eta_ms, h.eta_lower, h.eta_upper⟩

/-- Witness for `unmarshal_truncation_fails_type_unchecked` at a concrete
record, truncation point and type byte. -/
theorem unmarshal_truncation_fails_type_unchecked_witness :
    Record.unmarshal (sampleRecord.marshal.take 3) = none ∧
    Record.unmarshal (Record.marshal { sampleRecord with type := 99 }) =
      some { sampleRecord with type := 99 } :=
  ⟨(unmarshal_truncation_fails_type_unchecked sampleRecord sampleRecord_wf).1 3 (by decide),
   (unmarshal_truncation_fails_type_unchecked sampleRecord sampleRecord_wf).2 99 (by decide)⟩

/-- One shift round of the reflected CRC-32C computation: shift right one bit,
conditionally folding in the reversed Castagnoli polynomial `0x82F63B78`
(`crc32.MakeTable(crc32.Castagnoli)` in `internal/util/checksum.go`). -/
def crcBit (c : Nat) : Nat := if c % 2 = 1 then (c / 2) ^^^ 2197175160 else c / 2

/-- Absorb one byte into the CRC state: xor into the low byte, then eight shift
rounds (the bit-at-a-time form of Go's table-driven `crc32.Update`). -/
def crcByte (c b : Nat) : Nat :=
  crcBit (crcBit (crcBit (crcBit (crcBit (crcBit (crcBit (crcBit (c ^^^ b))))))))

/-- `util.Checksum`: CRC-32C over a byte string (initial value `^0`, final
complement, as performed by Go's `crc32.Checksum`). -/
def crc32c (bs : List Nat) : Nat := (bs.foldl crcByte 4294967295) ^^^ 4294967295

theorem crcBit_lt (c : Nat) (h : c < 4294967296) : crcBit c < 4294967296 := by
  have e : (4294967296 : Nat) = 2 ^ 32 := by norm_num
  unfold crcBit
  split
  · rw [e]
    exact Nat.xor_lt_two_pow (by omega) (by norm_num)
  · omega

theorem crcByte_lt (c b : Nat) (hc : c < 4294967296) (hb : b < 256) :
    crcByte c b < 4294967296 := by
  have e : (4294967296 : Nat) = 2 ^ 32 := by norm_num
  have h0 : c ^^^ b < 4294967296 := by
    rw [e]
    exact Nat.xor_lt_two_pow (by omega) (by omega)
  unfold crcByte
  exact crcBit_lt _ (crcBit_lt _ (crcBit_lt _ (crcBit_lt _ (crcBit_lt _ (crcBit_lt _
    (crcBit_lt _ (crcBit_lt _ h0)))))))

theorem crc32c_lt (bs : List Nat) (h : ∀ b ∈ bs, b < 256) : crc32c bs < 4294967296 := by
  have e : (4294967296 : Nat) = 2 ^ 32 := by norm_num
  have hfold : ∀ (l : List Nat) (c : Nat), (∀ b ∈ l, b < 256) → c < 4294967296 →
      l.foldl crcByte c < 4294967296 := by
    intro l
    induction l with
    | nil => intro c _ hc; simpa using hc
    | cons b l ih =>
      intro c hl hc
      simp only [List.foldl_cons]
      exact ih _ (fun x hx => hl x (List.mem_cons_of_mem b hx))
        (crcByte_lt c b hc (hl b (List.mem_cons_self b l)))
  unfold crc32c
  rw [e]
  exact Nat.xor_lt_two_pow (e ▸ hfold bs 4294967295 h (by norm_num)) (by norm_num)

/-- Frame of one record as written by `Segment.Write`
(`[len:u32][crc32c:u32][record bytes]`). -/
def frame (r : Record) : List Nat :=
  u32le r.marshal.length ++ u32le (crc32c r.marshal) ++ r.marshal

/-- Outcome of `SegmentReader.Read`: a record plus the unconsumed tail, clean
end-of-segment (`io.EOF`), a checksum failure (`ErrCorruptedData`), or any
other read error (the wrapped short-read and unmarshal failures, which the
caller does not treat as end-of-segment). -/
inductive ReadResult where
  | ok (r : Record) (rest : List Nat)
  | eof
  | corrupt
  | readErr
  deriving DecidableEq

/-- `SegmentReader.Read` (`segment.go`): an empty stream is `io.EOF`; a short
length, checksum or data read is a wrapped error; a checksum mismatch is
`ErrCorruptedData`; an unmarshal failure is a wrapped error; otherwise the
parsed record is returned. -/
def segRead (bs : List Nat) : ReadResult :=
  if bs = [] then .eof
  else
    match readN 4 bs with
    | none => .readErr
    | some lenp =>
      match readN 4 lenp.2 with
      | none => .readErr
      | some crcp =>
        match readN (leVal lenp.1) crcp.2 with
        | none => .readErr
        | some datap =>
          if crc32c datap.1 ≠ leVal crcp.1 then .corrupt
          else
            match Record.unmarshal datap.1 with
            | none => .readErr
            | some r => .ok r datap.2

/-- Replay error: a non-EOF, non-checksum read failure, or an error returned
by the replay callback — both abort `WAL.Replay` (`wal.go`). -/
inductive ReplayErr (ε : Type) where
  | readFailed
  | callbackFailed (e : ε)
  deriving DecidableEq

/-- Replay loop of one segment (the inner `for` of `WAL.Replay`): `io.EOF` and
`ErrCorruptedData` terminate the segment (the corrupted tail is discarded and
only logged), any other read error or a callback error aborts.  The callback
threads explicit state, modelling the Go closure's captured state.  The fuel
argument bounds the number of frames; since every frame consumes at least
eight bytes, `bs.length + 1` always suffices. -/
def replaySeg {σ ε : Type} (cb : σ → Record → Except ε σ) :
    Nat → σ → List Nat → Except (ReplayErr ε) σ
  | 0, _, _ => .error .readFailed
  | fuel + 1, st, bs =>
    match segRead bs with
    | .eof => .ok st
    | .corrupt => .ok st
    | .readErr => .error .readFailed
    | .ok r rest =>
      match cb st r with
      | .error e => .error (.callbackFailed e)
      | .ok st2 => replaySeg cb fuel st2 rest

/-- `WAL.Replay` (`wal.go`): segments are replayed in order; a segment ending
in EOF or a checksum failure lets replay continue with the next segment, while
read or callback errors abort the whole replay. -/
def walReplay {σ ε : Type} (cb : σ → Record → Except ε σ) (st : σ) :
    List (List Nat) → Except (ReplayErr ε) σ
  | [] => .ok st
  | s :: rest =>
    match replaySeg cb (s.length + 1) st s with
    | .error e => .error e
    | .ok st2 => walReplay cb st2 rest

/-- Result of running the callback over a record list in order (the effect the
spec prescribes for the records of one segment). -/
def cbRun {σ ε : Type} (cb : σ → Record → Except ε σ) (st : σ) :
    List Record → Except ε σ
  | [] => .ok st
  | r :: rs =>
    match cb st r with
    | .error e => .error e
    | .ok st2 => cbRun cb st2 rs

/-- Byte string of a record list framed back to back, as `Segment.Write`
produces it. -/
def frames (rs : List Record) : List Nat := rs.foldr (fun r acc => frame r ++ acc) []

theorem frames_cons (r : Record) (rs : List Record) :
    frames (r :: rs) = frame r ++ frames rs := rfl

theorem frames_length_ge (rs : List Record) : rs.length ≤ (frames rs).length := by
  induction rs with
  | nil => simp [frames]
  | cons r rs ih =>
    rw [frames_cons]
    have hfr : 8 ≤ (frame r).length := by simp [frame, u32le]
    simp only [List.length_append, List.length_cons]
    omega

theorem segRead_frame (r : Record) (hwf : r.WF) (hlen : r.marshal.length < 4294967296)
    (hbytes : ∀ b ∈ r.marshal, b < 256) (rest : List Nat) :
    segRead (frame r ++ rest) = .ok r rest := by
  have e1 : readN 4 (frame r ++ rest) =
      some (u32le r.marshal.length, u32le (crc32c r.marshal) ++ (r.marshal ++ rest)) := by
    simp only [frame, List.append_assoc]
    simpa [u32le_length] using
      readN_exact (u32le r.marshal.length) (u32le (crc32c r.marshal) ++ (r.marshal ++ rest))
  have e2 : readN 4 (u32le (crc32c r.marshal) ++ (r.marshal ++ rest)) =
      some (u32le (crc32c r.marshal), r.marshal ++ rest) := by
    simpa [u32le_length] using readN_exact (u32le (crc32c r.marshal)) (r.marshal ++ rest)
  have e3 : leVal (u32le r.marshal.length) = r.marshal.length := leVal_u32le _ hlen
  have e4 : leVal (u32le (crc32c r.marshal)) = crc32c r.marshal :=
    leVal_u32le _ (crc32c_lt _ hbytes)
  have e5 : readN r.marshal.length (r.marshal ++ rest) = some (r.marshal, rest) :=
    readN_exact _ _
  have hne : frame r ++ rest ≠ [] := by simp [frame, u32le]
  simp [segRead, hne, e1, e2, e3, e4, e5, unmarshal_marshal_of_wf_aux r hwf]

theorem replaySeg_frames {σ ε : Type} (cb : σ → Record → Except ε σ) (rs : List Record)
    (hwf : ∀ r ∈ rs, r.WF ∧ r.marshal.length < 4294967296 ∧ ∀ b ∈ r.marshal, b < 256)
    (ct : List Nat) (hct : segRead ct = .corrupt) :
    ∀ fuel st, rs.length < fuel →
      replaySeg cb fuel st (frames rs ++ ct) =
        match cbRun cb st rs with
        | .ok st2 => .ok st2
        | .error e => .error (.callbackFailed e) := by
  induction rs with
  | nil =>
    intro fuel st hfuel
    cases fuel with
    | zero => omega
    | succ f => simp [frames, replaySeg, hct, cbRun]
  | cons r rs ih =>
    intro fuel st hfuel
    cases fuel with
    | zero => simp at hfuel
    | succ f =>
      have hr := hwf r (List.mem_cons_self r rs)
      have hrs := fun x hx => hwf x (List.mem_cons_of_mem r hx)
      have hseg : segRead (frames (r :: rs) ++ ct) = .ok r (frames rs ++ ct) := by
        rw [frames_cons, List.append_assoc]
        exact segRead_frame r hr.1 hr.2.1 hr.2.2 _
      simp only [replaySeg, hseg]
      cases hcb : cb st r with
      | error e => simp [cbRun, hcb]
      | ok st2 =>
        simp only [cbRun, hcb]
        exact ih hrs f st2 (by simp only [List.length_cons] at hfuel; omega)

/-- C8 (amended).  During replay, a frame whose CRC verification fails
(`ErrCorruptedData`) terminates only that segment: the records framed before
the corrupt tail are delivered to the callback in order (the replay state
advances by exactly `cbRun` over them), the corrupt tail is discarded, and
replay continues with the remaining segments; an error returned by the
callback aborts the whole replay.  (A torn, truncated tail frame, by
contrast, is a wrapped read error, not `ErrCorruptedData` — see the
counterexample — so it aborts replay.) -/
theorem walReplay_corrupt_tail_skips_segment {σ ε : Type} (cb : σ → Record → Except ε σ)
    (rs : List Record) (ct : List Nat) (segs : List (List Nat)) (st : σ)
    (hwf : ∀ r ∈ rs, r.WF ∧ r.marshal.length < 4294967296 ∧ ∀ b ∈ r.marshal, b < 256)
    (hct : segRead ct = .corrupt) :
    (∀ st2, cbRun cb st rs = .ok st2 →
      walReplay cb st ((frames rs ++ ct) :: segs) = walReplay cb st2 segs) ∧
    (∀ e, cbRun cb st rs = .error e →
      walReplay cb st ((frames rs ++ ct) :: segs) = .error (.callbackFailed e)) := by
  have hfuel : rs.length < (frames rs ++ ct).length + 1 := by
    have hge := frames_length_ge rs
    simp only [List.length_append]
    omega
  have hmain := replaySeg_frames cb rs hwf ct hct ((frames rs ++ ct).length + 1) st hfuel
  constructor
  · intro st2 hok
    rw [hok] at hmain
    simp only [walReplay, hmain]
  · intro e herr
    rw [herr] at hmain
    simp only [walReplay, hmain]

/-- Record with every field empty or zero (a minimal valid frame payload). -/
def tinyRecord : Record :=
  { type := 1, queue := [], jobID := [], payload := [], headers := [],
    priority := 0, tries := 0, maxRetries := 0, eta := 0, leaseID := [], reason := [] }

/-- Second record, distinguished by its payload. -/
def tinyRecord2 : Record := { tinyRecord with payload := [7] }

/-- Frame whose stored checksum (1) differs from the CRC-32C of its empty
body (0): a pure checksum failure. -/
def corruptFrame : List Nat := [0, 0, 0, 0, 1, 0, 0, 0]

/-- Callback that records every delivered record (error type `Unit`, never
used: this callback always succeeds). -/
def collectCb (st : List Record) (r : Record) : Except Unit (List Record) :=
  Except.ok (st ++ [r])

set_option maxRecDepth 100000 in
/-- C8 (counterexample).  A torn, truncated tail frame (here a frame header
announcing five bytes with no bytes following) is not a CRC failure: the
segment reader reports a wrapped read error, and `WAL.Replay` aborts the
whole replay instead of delivering the preceding record and continuing with
segment k+1. -/
theorem walReplay_aborts_on_torn_tail :
    walReplay collectCb [] [frame tinyRecord ++ [5, 0, 0, 0], frame tinyRecord2] =
      .error .readFailed := by rfl

set_option maxRecDepth 100000 in
/-- Witness for `walReplay_corrupt_tail_skips_segment` at a concrete segment
list: one segment holding one good frame and a corrupt tail, followed by one
good segment. -/
theorem walReplay_corrupt_tail_skips_segment_witness :
    walReplay collectCb [] ((frames [tinyRecord] ++ corruptFrame) :: [frame tinyRecord2]) =
      walReplay collectCb [tinyRecord] [frame tinyRecord2] :=
  (walReplay_corrupt_tail_skips_segment collectCb
    [tinyRecord] corruptFrame [frame tinyRecord2] []
    (by
      intro r hr
      simp only [List.mem_singleton] at hr
      subst hr
      exact ⟨⟨by decide, by decide, by decide, by decide, by decide, by decide, by decide,
        by decide, by decide, by decide, by decide, by decide, ⟨0, by decide⟩, by decide,
        by decide⟩, by decide, by decide⟩)
    (by rfl)).1 [tinyRecord] (by rfl)

end Wal

namespace Queue

/-- Status of a job (`JobStatus` in `internal/queue/job.go`). -/
inductive JobStatus where
  | ready
  | inflight
  | dlq
  deriving DecidableEq, Repr

/-- A queued job (`queue.Job` in `internal/queue/job.go`).  `time.Time` values
are the `Int` of nanoseconds on the process clock line, with `0` standing for
Go's zero `time.Time` (so `ETA.IsZero()` is `eta = 0`); `LeaseDeadline`'s zero
value is modelled as `none`. -/
structure Job where
  id : String
  queue : String
  payload : List Nat
  headers : List (String × String)
  priority : Nat
  tries : Nat
  maxRetries : Nat
  eta : Int
  leaseID : String
  leaseDeadline : Option Int
  status : JobStatus
  enqueuedAt : Int
  deriving DecidableEq, Repr

/-- `Job.IsReady`: status `READY` and the ETA is zero or not after `now`. -/
def Job.isReady (j : Job) (now : Int) : Bool :=
  j.status == .ready && (j.eta == 0 || decide (j.eta < now) || j.eta == now)

/-- `Job.ShouldRetry` (`job.go`): strictly fewer tries than the retry
ceiling. -/
def Job.shouldRetry (j : Job) : Bool := decide (j.tries < j.maxRetries)

/-- `jobHeap.Less` (`priority_queue.go`): higher priority first, then earlier
ETA, then earlier enqueue time.  There is no further tie-break. -/
def less (a b : Job) : Bool :=
  if a.priority ≠ b.priority then decide (b.priority < a.priority)
  else if a.eta ≠ b.eta then decide (a.eta < b.eta)
  else decide (a.enqueuedAt < b.enqueuedAt)

/-- `jobHeap.Swap`: exchange the elements at two positions (the `index`
fields of the Go items are the list positions themselves). -/
def swapL (l : List Job) (i j : Nat) : List Job :=
  match l[i]?, l[j]? with
  | some a, some b => (l.set i b).set j a
  | _, _ => l

/-- Sift-up (`container/heap.up`): while the element is smaller than its
parent, swap it upward.  The parent index strictly decreases, so `j + 1`
steps of fuel always suffice; for `j = 0` Go's `(j-1)/2 == j` check stops. -/
def heapUpF : Nat → List Job → Nat → List Job
  | 0, l, _ => l
  | fuel + 1, l, j =>
    if j = 0 then l
    else
      match l[j]?, l[(j - 1) / 2]? with
      | some xj, some xi =>
        if less xj xi then heapUpF fuel (swapL l ((j - 1) / 2) j) ((j - 1) / 2) else l
      | _, _ => l

/-- `container/heap.up` with its always-sufficient fuel. -/
def heapUp (l : List Job) (j : Nat) : List Job := heapUpF (j + 1) l j

/-- Child chosen by `container/heap.down`: the left child, or the right child
when it exists within the bound and is smaller. -/
def downChild (l : List Job) (i n : Nat) : Nat :=
  if 2 * i + 2 < n then
    match l[2 * i + 2]?, l[2 * i + 1]? with
    | some xj2, some xj1 => if less xj2 xj1 then 2 * i + 2 else 2 * i + 1
    | _, _ => 2 * i + 1
  else 2 * i + 1

/-- Sift-down (`container/heap.down`), returning the final index: while a
child within bound `n` is smaller, swap downward toward the smaller child.
The index at least doubles each step, so `n` steps of fuel always suffice. -/
def heapDownF : Nat → List Job → Nat → Nat → List Job × Nat
  | 0, l, i, _ => (l, i)
  | fuel + 1, l, i, n =>
    if 2 * i + 1 ≥ n then (l, i)
    else
      match l[downChild l i n]?, l[i]? with
      | some xj, some xi =>
        if less xj xi then
          heapDownF fuel (swapL l i (downChild l i n)) (downChild l i n) n
        else (l, i)
      | _, _ => (l, i)

/-- `container/heap.down`: the sifted list and whether the element moved
(`i > i0`). -/
def heapDown (l : List Job) (i0 n : Nat) : List Job × Bool :=
  let p := heapDownF n l i0 n
  (p.1, decide (i0 < p.2))

/-- The per-queue priority structure (`priorityQueue` in
`priority_queue.go`): the heap slice plus the key set of the `items` map
(whose values — the item pointers with their `index` fields — are determined
by the positions in the heap slice). -/
structure PriorityQueue where
  heap : List Job
  items : List String
  deriving DecidableEq, Repr

/-- `newPriorityQueue`. -/
def PriorityQueue.empty : PriorityQueue := ⟨[], []⟩

/-- `priorityQueue.Push`: a job whose id is already present is ignored;
otherwise the job is appended (`jobHeap.Push`) and sifted up, and its id is
added to the map. -/
def PriorityQueue.push (pq : PriorityQueue) (job : Job) : PriorityQueue :=
  if pq.items.contains job.id then pq
  else
    { heap := heapUp (pq.heap ++ [job]) ((pq.heap ++ [job]).length - 1),
      items := job.id :: pq.items }

/-- `heap.Pop` on the job heap: swap the root with the last element, sift the
new root down within the shrunk bound, then remove and return the last
element. -/
def popHeap (l : List Job) : Option Job × List Job :=
  let n := l.length - 1
  let l2 := (heapDown (swapL l 0 n) 0 n).1
  (l2[n]?, l2.take n)

/-- `priorityQueue.Pop`: empty heap yields nothing; otherwise the heap root
is removed and its id deleted from the map. -/
def PriorityQueue.pop (pq : PriorityQueue) : Option Job × PriorityQueue :=
  if pq.heap.length = 0 then (none, pq)
  else
    match popHeap pq.heap with
    | (some job, h2) => (some job, { heap := h2, items := pq.items.filter (· != job.id) })
    | (none, _) => (none, pq)

/-- Body of `container/heap.Remove` before the final pop: if the index is not
the last, swap with the last element and sift down (or up, when sift-down did
not move the element). -/
def heapRemoveAt (l : List Job) (i : Nat) : List Job :=
  if i ≠ l.length - 1 then
    if (heapDown (swapL l i (l.length - 1)) i (l.length - 1)).2 then
      (heapDown (swapL l i (l.length - 1)) i (l.length - 1)).1
    else heapUp (heapDown (swapL l i (l.length - 1)) i (l.length - 1)).1 i
  else l

/-- `priorityQueue.Remove`: look the id up in the map; if present, remove the
element at its heap index (the `index` field of the map entry, i.e. the job's
position in the heap slice) via `heap.Remove` and delete the id from the
map. -/
def PriorityQueue.remove (pq : PriorityQueue) (id : String) : Option Job × PriorityQueue :=
  if pq.items.contains id then
    match pq.heap.findIdx? (fun j => j.id == id) with
    | none => (none, pq)
    | some i =>
      let l1 := heapRemoveAt pq.heap i
      ((l1[pq.heap.length - 1]?),
        { heap := l1.take (pq.heap.length - 1), items := pq.items.filter (· != id) })
  else (none, pq)

/-- `priorityQueue.PopReady`: inspect only the heap top; if the heap is empty
or the top job's ETA has not arrived, return nothing — otherwise `Pop`. -/
def PriorityQueue.popReady (pq : PriorityQueue) (now : Int) : Option Job × PriorityQueue :=
  match pq.heap.head? with
  | none => (none, pq)
  | some top => if top.isReady now then pq.pop else (none, pq)

/-- Job template with every field zero or empty and status `READY`. -/
def baseJob : Job :=
  { id := "", queue := "q", payload := [], headers := [], priority := 0, tries := 0,
    maxRetries := 3, eta := 0, leaseID := "", leaseDeadline := none,
    status := .ready, enqueuedAt := 0 }

/-- Two distinct jobs agreeing on priority, ETA and enqueue time. -/
def tiedJobA : Job := { baseJob with id := "a", priority := 5, eta := 10, enqueuedAt := 3 }

/-- Second of the tied pair, distinguished only by its id. -/
def tiedJobB : Job := { baseJob with id := "b", priority := 5, eta := 10, enqueuedAt := 3 }

/-- C5 (counterexample).  `jobHeap.Less` compares priority, ETA and enqueue
time only — there is no lexicographic job-id tie-break: for two distinct jobs
that agree on those three keys, the comparison decides neither way, so it is
not a total order on distinct jobs as the claim states. -/
theorem less_lacks_jobid_tiebreak :
    less tiedJobA tiedJobB = false ∧ less tiedJobB tiedJobA = false ∧
      tiedJobA ≠ tiedJobB := by decide

/-- Preference order as the spec words it, truncated to the three keys the
code actually compares (for the refinement comparison with `less`): higher
priority first, then earlier scheduled time, then earlier enqueue time. -/
def specLess (a b : Job) : Prop :=
  b.priority < a.priority ∨
    (a.priority = b.priority ∧
      (a.eta < b.eta ∨ (a.eta = b.eta ∧ a.enqueuedAt < b.enqueuedAt)))

/-- C5 (amended).  The order used by the ready structure is exactly: higher
priority first, then earlier scheduled time, then earlier enqueue time — with
no job-id tie-break.  It decides one way for every pair of jobs that differ
on at least one of these three keys, and it is asymmetric; jobs agreeing on
all three keys are unordered regardless of their ids. -/
theorem less_iff_specLess (a b : Job) :
    (less a b = true ↔ specLess a b) ∧
    ((a.priority, a.eta, a.enqueuedAt) ≠ (b.priority, b.eta, b.enqueuedAt) →
      (less a b = true ∨ less b a = true)) ∧
    (less a b = true → less b a = false) := by
  refine ⟨?_, ?_, ?_⟩ <;>
      simp only [less, specLess, ne_eq, Prod.mk.injEq, not_and] <;>
      split_ifs <;>
      simp_all <;>
      omega

/-- Witness for `less_iff_specLess` at a concrete pair with distinct keys. -/
theorem less_iff_specLess_witness :
    less tiedJobA baseJob = true ∨ less baseJob tiedJobA = true :=
  (less_iff_specLess tiedJobA baseJob).2.1 (by decide)

/-- High-priority job whose scheduled time is still in the future. -/
def futureHighJob : Job := { baseJob with id := "A", priority := 9, eta := 100 }

/-- Low-priority job whose scheduled time has already arrived. -/
def dueLowJob : Job := { baseJob with id := "B", priority := 1, eta := 1 }

/-- Ready structure holding the future high-priority job (heap top) and the
deliverable low-priority job. -/
def pqC4 : PriorityQueue := (PriorityQueue.empty.push futureHighJob).push dueLowJob

/-- C4 (code bug).  `PopReady` filters only the single heap top: with a
high-priority job scheduled in the future at the top and a deliverable
low-priority job below it, `PopReady(now)` returns nothing even though a job
with `scheduled_time ≤ now` is in the structure — the spec requires the most
preferred deliverable job to be returned. -/
theorem popReady_misses_deliverable :
    (pqC4.popReady 50).1 = none ∧
      dueLowJob ∈ pqC4.heap ∧ dueLowJob.isReady 50 = true := by decide

theorem set_self_of_getElem (l : List Job) (i : Nat) (a : Job) (h : l[i]? = some a) :
    l.set i a = l := by
  obtain ⟨hlt, rfl⟩ := List.getElem?_eq_some_iff.mp h
  rw [List.set_eq_take_cons_drop _ hlt, ← List.drop_eq_getElem_cons hlt,
    List.take_append_drop]

theorem count_set_eq (l : List Job) (i : Nat) (x old : Job)
    (hold : l[i]? = some old) (c : Job) :
    (l.set i x).count c + (if old = c then 1 else 0) =
      l.count c + (if x = c then 1 else 0) := by
  induction l generalizing i with
  | nil => simp at hold
  | cons a t ih =>
    cases i with
    | zero =>
      simp only [List.getElem?_cons_zero, Option.some.injEq] at hold
      subst hold
      simp only [List.set_cons_zero, List.count_cons, beq_iff_eq]
      split_ifs <;> omega
    | succ i =>
      simp only [List.getElem?_cons_succ] at hold
      have h2 := ih i hold
      simp only [List.set_cons_succ, List.count_cons, beq_iff_eq]
      by_cases h1 : old = c <;> by_cases hx : x = c <;> by_cases ha : a = c <;>
        simp only [h1, hx, ha, if_true, if_false] at h2 ⊢ <;> omega

theorem set_swap_perm (l : List Job) (i j : Nat) (a b : Job) (hij : i < j)
    (ha : l[i]? = some a) (hb : l[j]? = some b) : List.Perm ((l.set i b).set j a) l := by
  rw [List.perm_iff_count]
  intro c
  have hXb : (l.set i b)[j]? = some b := by
    rw [List.getElem?_set_ne (by omega)]
    exact hb
  have h1 := count_set_eq (l.set i b) j a b hXb c
  have h2 := count_set_eq l i b a ha c
  split_ifs at h1 h2 <;> omega

theorem swapL_perm (l : List Job) (i j : Nat) : List.Perm (swapL l i j) l := by
  unfold swapL
  cases hi : l[i]? with
  | none => exact List.Perm.refl _
  | some a =>
    cases hj : l[j]? with
    | none => exact List.Perm.refl _
    | some b =>
      show List.Perm ((l.set i b).set j a) l
      rcases Nat.lt_trichotomy i j with hlt | heq | hgt
      · exact set_swap_perm l i j a b hlt hi hj
      · subst heq
        rw [hi] at hj
        cases hj
        rw [List.set_set, set_self_of_getElem l i a hi]
      · rw [List.set_comm _ _ _ (by omega : i ≠ j)]
        exact set_swap_perm l j i b a hgt hj hi

theorem heapUpF_perm (fuel : Nat) :
    ∀ (l : List Job) (j : Nat), List.Perm (heapUpF fuel l j) l := by
  induction fuel with
  | zero => intro l j; exact List.Perm.refl _
  | succ f ih =>
    intro l j
    unfold heapUpF
    split
    · exact List.Perm.refl _
    · split
      all_goals try exact List.Perm.refl _
      split
      · exact (ih _ _).trans (swapL_perm l ((j - 1) / 2) j)
      · exact List.Perm.refl _

theorem heapDownF_perm (fuel : Nat) :
    ∀ (l : List Job) (i n : Nat), List.Perm (heapDownF fuel l i n).1 l := by
  induction fuel with
  | zero => intro l i n; exact List.Perm.refl _
  | succ f ih =>
    intro l i n
    unfold heapDownF
    split
    · exact List.Perm.refl _
    · split
      all_goals try exact List.Perm.refl _
      split
      · exact (ih _ _ _).trans (swapL_perm l i _)
      · exact List.Perm.refl _

theorem swapL_drop (l : List Job) (i j n : Nat) (hi : i < n) (hj : j < n) :
    (swapL l i j).drop n = l.drop n := by
  unfold swapL
  cases l[i]? <;> cases l[j]? <;>
    simp [List.drop_set_of_lt _ _ hi, List.drop_set_of_lt _ _ hj]

theorem downChild_lt (l : List Job) (i n : Nat) (h : 2 * i + 1 < n) :
    downChild l i n < n := by
  unfold downChild
  split
  · cases l[2 * i + 2]? <;> cases l[2 * i + 1]? <;> simp <;>
        first | (split <;> omega) | omega
  · omega

theorem heapUpF_drop (fuel : Nat) :
    ∀ (l : List Job) (j n : Nat), j < n → (heapUpF fuel l j).drop n = l.drop n := by
  induction fuel with
  | zero => intro l j n _; rfl
  | succ f ih =>
    intro l j n hj
    unfold heapUpF
    split
    · rfl
    · split
      all_goals try rfl
      split
      · rw [ih _ _ _ (by omega), swapL_drop _ _ _ _ (by omega) hj]
      · rfl

theorem heapDownF_drop (fuel : Nat) :
    ∀ (l : List Job) (i n : Nat), (heapDownF fuel l i n).1.drop n = l.drop n := by
  induction fuel with
  | zero => intro l i n; rfl
  | succ f ih =>
    intro l i n
    unfold heapDownF
    split
    · rfl
    · rename_i hlt
      have hi : i < n := by omega
      have hc : downChild l i n < n := downChild_lt l i n (by omega)
      split
      all_goals try rfl
      split
      · rw [ih _ _ _, swapL_drop _ _ _ _ hi hc]
      · rfl

theorem swapL_getElem_right (l : List Job) (i j : Nat) (hi : i < l.length)
    (hj : j < l.length) : (swapL l i j)[j]? = l[i]? := by
  unfold swapL
  cases hvi : l[i]? with
  | none => rw [List.getElem?_eq_none_iff] at hvi; omega
  | some a =>
    cases hvj : l[j]? with
    | none => rw [List.getElem?_eq_none_iff] at hvj; omega
    | some b =>
      show ((l.set i b).set j a)[j]? = some a
      rw [List.getElem?_set_self (by simpa)]

theorem swapL_length (l : List Job) (i j : Nat) : (swapL l i j).length = l.length :=
  (swapL_perm l i j).length_eq

/-- Ids of the heap slice, in position order. -/
def idsOf (l : List Job) : List String := l.map Job.id

/-- Consistency of the two halves of `priorityQueue`: the heap holds no two
items with the same job id, and the `items` map holds exactly the ids of the
heap's jobs. -/
def Inv (pq : PriorityQueue) : Prop :=
  (idsOf pq.heap).Nodup ∧ ∀ s, s ∈ pq.items ↔ s ∈ idsOf pq.heap

theorem contains_iff_mem (l : List String) (s : String) :
    l.contains s = true ↔ s ∈ l := by
  simp [List.contains_iff_exists_mem_beq, beq_iff_eq]

theorem take_last_perm (l1 l : List Job) (job : Job) (hperm : List.Perm l1 l)
    (hlast : l1[l.length - 1]? = some job) (hlen : 0 < l.length) :
    List.Perm (l1.take (l.length - 1) ++ [job]) l := by
  have hlen1 : l1.length = l.length := hperm.length_eq
  have hblt : l.length - 1 < l1.length := by omega
  have hdrop : l1.drop (l.length - 1) = [job] := by
    rw [List.drop_eq_getElem_cons hblt]
    rw [List.getElem?_eq_getElem hblt] at hlast
    rw [Option.some.inj hlast]
    rw [List.drop_eq_nil_iff.mpr (by omega)]
  rw [show l1.take (l.length - 1) ++ [job] = l1 by rw [← hdrop, List.take_append_drop]]
  exact hperm

theorem popHeap_spec (l : List Job) (hlen : 0 < l.length) :
    ∃ job, (popHeap l).1 = some job ∧ List.Perm ((popHeap l).2 ++ [job]) l := by
  set n := l.length - 1 with hn
  have hperm1 : List.Perm (swapL l 0 n) l := swapL_perm l 0 n
  have hperm2 : List.Perm (heapDown (swapL l 0 n) 0 n).1 (swapL l 0 n) :=
    heapDownF_perm n (swapL l 0 n) 0 n
  have hperm : List.Perm (heapDown (swapL l 0 n) 0 n).1 l := hperm2.trans hperm1
  have hget : (heapDown (swapL l 0 n) 0 n).1[n]? = l[0]? := by
    have hd : (heapDown (swapL l 0 n) 0 n).1.drop n = (swapL l 0 n).drop n :=
      heapDownF_drop n (swapL l 0 n) 0 n
    have h1 : (heapDown (swapL l 0 n) 0 n).1[n]? =
        ((heapDown (swapL l 0 n) 0 n).1.drop n)[0]? := by
      simp [List.getElem?_drop]
    have h2 : ((swapL l 0 n).drop n)[0]? = (swapL l 0 n)[n]? := by
      simp [List.getElem?_drop]
    rw [h1, hd, h2]
    exact swapL_getElem_right l 0 n hlen (by omega)
  obtain ⟨j0, hj0⟩ : ∃ a, l[0]? = some a := by
    rw [List.getElem?_eq_getElem hlen]
    exact ⟨_, rfl⟩
  refine ⟨j0, ?_, ?_⟩
  · show (heapDown (swapL l 0 n) 0 n).1[n]? = some j0
    rw [hget, hj0]
  · show List.Perm ((heapDown (swapL l 0 n) 0 n).1.take n ++ [j0]) l
    exact take_last_perm _ l j0 hperm (by rw [← hn, hget, hj0]) hlen

theorem heapRemoveAt_perm (l : List Job) (i : Nat) :
    List.Perm (heapRemoveAt l i) l := by
  unfold heapRemoveAt
  split
  · have h1 : List.Perm (heapDown (swapL l i (l.length - 1)) i (l.length - 1)).1 l :=
      (heapDownF_perm _ _ _ _).trans (swapL_perm l i (l.length - 1))
    split
    · exact h1
    · exact (heapUpF_perm _ _ _).trans h1
  · exact List.Perm.refl _

theorem heapRemoveAt_getElem_last (l : List Job) (i : Nat) (hi : i < l.length) :
    (heapRemoveAt l i)[l.length - 1]? = l[i]? := by
  unfold heapRemoveAt
  split
  · rename_i hne
    have hiltn : i < l.length - 1 := by omega
    have hd1 : (heapDown (swapL l i (l.length - 1)) i (l.length - 1)).1.drop (l.length - 1) =
        (swapL l i (l.length - 1)).drop (l.length - 1) :=
      heapDownF_drop _ _ _ _
    have hd2 : ∀ l2 : List Job, l2.drop (l.length - 1) = (swapL l i (l.length - 1)).drop (l.length - 1) →
        l2[l.length - 1]? = l[i]? := by
      intro l2 h2
      have h3 : l2[l.length - 1]? = (l2.drop (l.length - 1))[0]? := by
        simp [List.getElem?_drop]
      have h4 : ((swapL l i (l.length - 1)).drop (l.length - 1))[0]? =
          (swapL l i (l.length - 1))[l.length - 1]? := by
        simp [List.getElem?_drop]
      rw [h3, h2, h4]
      exact swapL_getElem_right l i (l.length - 1) hi (by omega)
    split
    · exact hd2 _ hd1
    · refine hd2 _ ?_
      unfold heapUp
      rw [heapUpF_drop _ _ _ _ hiltn]
      exact hd1
  · rename_i heq
    simp only [ne_eq, not_not] at heq
    rw [heq]

theorem push_inv (pq : PriorityQueue) (j : Job) (h : Inv pq) : Inv (pq.push j) := by
  unfold PriorityQueue.push
  split
  · exact h
  · rename_i hnc
    have hnotmem : j.id ∉ idsOf pq.heap := by
      intro hm
      exact hnc ((contains_iff_mem _ _).mpr ((h.2 j.id).mpr hm))
    have hperm : List.Perm (heapUp (pq.heap ++ [j]) ((pq.heap ++ [j]).length - 1))
        (pq.heap ++ [j]) := heapUpF_perm _ _ _
    have hpermIds : List.Perm (idsOf (heapUp (pq.heap ++ [j]) ((pq.heap ++ [j]).length - 1)))
        (idsOf pq.heap ++ [j.id]) := by
      simpa [idsOf] using hperm.map Job.id
    constructor
    · rw [hpermIds.nodup_iff]
      have : List.Perm (idsOf pq.heap ++ [j.id]) (j.id :: idsOf pq.heap) :=
        List.perm_append_comm
      rw [this.nodup_iff, List.nodup_cons]
      exact ⟨hnotmem, h.1⟩
    · intro s
      rw [hpermIds.mem_iff]
      simp only [List.mem_cons, List.mem_append, List.mem_singleton,
        List.not_mem_nil, or_false]
      rw [h.2 s]
      exact or_comm

theorem inv_removal (heap heap2 : List Job) (items : List String) (job : Job)
    (hperm : List.Perm (heap2 ++ [job]) heap)
    (hinv : Inv ⟨heap, items⟩) :
    Inv ⟨heap2, items.filter (· != job.id)⟩ := by
  have hpermIds : List.Perm (idsOf heap2 ++ [job.id]) (idsOf heap) := by
    simpa [idsOf] using hperm.map Job.id
  have hnodup2 : (idsOf heap2 ++ [job.id]).Nodup := hpermIds.nodup_iff.mpr hinv.1
  have hsplit := List.nodup_append.mp hnodup2
  have hni : job.id ∉ idsOf heap2 := fun hm => hsplit.2.2 hm (List.mem_singleton_self _)
  constructor
  · exact hsplit.1
  · intro s
    have hmem : s ∈ idsOf heap2 ++ [job.id] ↔ s ∈ idsOf heap := hpermIds.mem_iff
    constructor
    · intro hs
      have h1 : s ∈ items := (List.mem_filter.mp hs).1
      have h2 : s ≠ job.id := by simpa using (List.mem_filter.mp hs).2
      have h3 : s ∈ idsOf heap := (hinv.2 s).mp h1
      rcases List.mem_append.mp (hmem.mpr h3) with h5 | h5
      · exact h5
      · exact absurd (List.mem_singleton.mp h5) h2
    · intro hs
      refine List.mem_filter.mpr ⟨(hinv.2 s).mpr (hmem.mp (List.mem_append.mpr (Or.inl hs))), ?_⟩
      have hne : s ≠ job.id := fun he => hni (he ▸ hs)
      simpa using hne

theorem pop_inv (pq : PriorityQueue) (h : Inv pq) : Inv (pq.pop).2 := by
  unfold PriorityQueue.pop
  split
  · exact h
  · rename_i hne
    obtain ⟨job, h1, hperm⟩ := popHeap_spec pq.heap (by omega)
    have heq : popHeap pq.heap = (some job, (popHeap pq.heap).2) := by
      rw [← h1]
    rw [heq]
    exact inv_removal pq.heap (popHeap pq.heap).2 pq.items job hperm h

theorem remove_inv (pq : PriorityQueue) (id : String) (h : Inv pq) :
    Inv (pq.remove id).2 := by
  unfold PriorityQueue.remove
  split
  · cases hf : pq.heap.findIdx? (fun j => j.id == id) with
    | none => exact h
    | some i =>
      obtain ⟨hi, hpi, -⟩ := List.findIdx?_eq_some_iff_getElem.mp hf
      have hglt : pq.heap[i]? = some (pq.heap[i]) := List.getElem?_eq_getElem hi
      have hid : (pq.heap[i]).id = id := by simpa using hpi
      have hlast : (heapRemoveAt pq.heap i)[pq.heap.length - 1]? = some (pq.heap[i]) := by
        rw [heapRemoveAt_getElem_last pq.heap i hi, hglt]
      have hperm : List.Perm ((heapRemoveAt pq.heap i).take (pq.heap.length - 1) ++
          [pq.heap[i]]) pq.heap :=
        take_last_perm _ pq.heap _ (heapRemoveAt_perm pq.heap i) hlast (by omega)
      have hres := inv_removal pq.heap ((heapRemoveAt pq.heap i).take (pq.heap.length - 1))
        pq.items (pq.heap[i]) hperm h
      rw [hid] at hres
      exact hres
  · exact h

/-- Operations of the priority structure, as exercised by the manager. -/
inductive PQOp where
  | push (j : Job)
  | pop
  | remove (id : String)

/-- Apply one operation, keeping the structure (returned jobs discarded). -/
def PriorityQueue.applyOp (pq : PriorityQueue) : PQOp → PriorityQueue
  | .push j => pq.push j
  | .pop => (pq.pop).2
  | .remove id => (pq.remove id).2

/-- Run a sequence of operations from the empty structure. -/
def runOps (ops : List PQOp) : PriorityQueue :=
  ops.foldl PriorityQueue.applyOp PriorityQueue.empty

theorem applyOp_inv (pq : PriorityQueue) (op : PQOp) (h : Inv pq) :
    Inv (pq.applyOp op) := by
  cases op with
  | push j => exact push_inv pq j h
  | pop => exact pop_inv pq h
  | remove id => exact remove_inv pq id h

theorem runOps_inv (ops : List PQOp) : Inv (runOps ops) := by
  have hgen : ∀ pq, Inv pq → Inv (ops.foldl PriorityQueue.applyOp pq) := by
    induction ops with
    | nil => intro pq h; exact h
    | cons op ops ih =>
      intro pq h
      exact ih _ (applyOp_inv pq op h)
  exact hgen PriorityQueue.empty ⟨List.nodup_nil, by simp [idsOf, PriorityQueue.empty]⟩

/-- C10.  For every sequence of insert/pop/remove operations from the empty
structure, the ready structure never holds two entries with the same job id,
and inserting a job whose id is already present leaves the structure (its
contents and hence its length) entirely unchanged. -/
theorem pq_no_duplicate_ids (ops : List PQOp) (j : Job) :
    (idsOf (runOps ops).heap).Nodup ∧
      (j.id ∈ idsOf (runOps ops).heap → (runOps ops).push j = runOps ops) := by
  have hinv := runOps_inv ops
  refine ⟨hinv.1, ?_⟩
  intro hmem
  unfold PriorityQueue.push
  rw [if_pos ((contains_iff_mem _ _).mpr ((hinv.2 j.id).mpr hmem))]

/-- Operation sequence used as the concrete witness input. -/
def opsW : List PQOp := [.push tiedJobA, .push dueLowJob]

/-- Job with `tiedJobA`'s id but different contents. -/
def dupJob : Job := { tiedJobA with priority := 8 }

/-- Witness for `pq_no_duplicate_ids` at a concrete operation sequence and a
duplicate-id insert. -/
theorem pq_no_duplicate_ids_witness :
    (idsOf (runOps opsW).heap).Nodup ∧ (runOps opsW).push dupJob = runOps opsW :=
  ⟨(pq_no_duplicate_ids opsW dupJob).1, (pq_no_duplicate_ids opsW dupJob).2 (by decide)⟩

/-- A WAL record as the queue manager consumes it (`wal.Record`, `record.go`)
at the Go-struct level: strings stay strings and `ETA` is the `Int` instant.
The type field keeps the numeric constants (1 `ENQUEUE` … 5 `TOMBSTONE`). -/
structure WalRecord where
  type : Nat
  queue : String
  jobID : String
  payload : List Nat
  headers : List (String × String)
  priority : Nat
  tries : Nat
  maxRetries : Nat
  eta : Int
  leaseID : String
  reason : String
  deriving DecidableEq, Repr

/-- State of one queue (`queue.Queue`): the ready structure, the in-flight
map and the dead-letter map (association lists for the Go maps). -/
structure QState where
  ready : PriorityQueue
  inflight : List (String × Job)
  dlq : List (String × Job)
  deriving DecidableEq, Repr

/-- Freshly created queue (`getOrCreateQueue`'s initializer). -/
def emptyQState : QState := ⟨PriorityQueue.empty, [], []⟩

/-- Go map lookup. -/
def lookupKey (m : List (String × Job)) (k : String) : Option Job :=
  (m.find? (fun p => p.1 == k)).map Prod.snd

/-- Go map `delete`. -/
def eraseKey (m : List (String × Job)) (k : String) : List (String × Job) :=
  m.filter (fun p => p.1 != k)

/-- Go map assignment `m[k] = v`. -/
def insertKey (m : List (String × Job)) (k : String) (v : Job) : List (String × Job) :=
  (k, v) :: eraseKey m k

/-- Keys of a map. -/
def keysOf (m : List (String × Job)) : List String := m.map Prod.fst

/-- The manager's `queues` map (`Manager.queues`). -/
def ManagerState : Type := List (String × QState)

/-- `Manager.getQueue`. -/
def getQueue (st : ManagerState) (name : String) : Option QState :=
  (List.find? (fun p => p.1 == name) st).map Prod.snd

/-- Store a queue under its name (the mutation `m.queues[name] = queue`). -/
def setQueue (st : ManagerState) (name : String) (q : QState) : ManagerState :=
  if List.any st (fun p => p.1 == name) then
    List.map (fun p => if p.1 == name then (name, q) else p) st
  else List.append st [(name, q)]

/-- The replay callback of `Manager.replayWAL` (`queue.go`), applied to one
record: `ENQUEUE` materializes a READY job into the named queue's ready
structure (via `getOrCreateQueue`); `ACK` deletes the job id from the
in-flight map only; `NACK`/`REQUEUE` moves an in-flight job back to ready, or
to the dead-letter map when `ShouldRetry` fails; `TOMBSTONE` deletes from
in-flight and dead-letter; any other type byte falls through the switch and
is ignored.  The replay-time wall clock written into `EnqueuedAt` is fixed at
0. -/
def applyReplayRecord (st : ManagerState) (rec : WalRecord) : ManagerState :=
  if rec.type = 1 then
    let q := (getQueue st rec.queue).getD emptyQState
    let job : Job :=
      { id := rec.jobID, queue := rec.queue, payload := rec.payload,
        headers := rec.headers, priority := rec.priority, tries := rec.tries,
        maxRetries := rec.maxRetries, eta := rec.eta, leaseID := "",
        leaseDeadline := none, status := .ready, enqueuedAt := 0 }
    setQueue st rec.queue { q with ready := q.ready.push job }
  else if rec.type = 2 then
    match getQueue st rec.queue with
    | none => st
    | some q => setQueue st rec.queue { q with inflight := eraseKey q.inflight rec.jobID }
  else if rec.type = 3 ∨ rec.type = 4 then
    match getQueue st rec.queue with
    | none => st
    | some q =>
      match lookupKey q.inflight rec.jobID with
      | none => setQueue st rec.queue q
      | some job =>
        let j1 : Job :=
          { job with
            tries := rec.tries, eta := rec.eta,
            status := .ready, leaseID := "", leaseDeadline := none }
        if j1.shouldRetry then
          setQueue st rec.queue
            { q with
              inflight := eraseKey q.inflight rec.jobID,
              ready := q.ready.push j1 }
        else
          setQueue st rec.queue
            { q with
              inflight := eraseKey q.inflight rec.jobID,
              dlq := insertKey q.dlq j1.id { j1 with status := .dlq } }
  else if rec.type = 5 then
    match getQueue st rec.queue with
    | none => st
    | some q =>
      setQueue st rec.queue
        { q with
          inflight := eraseKey q.inflight rec.jobID,
          dlq := eraseKey q.dlq rec.jobID }
  else st

/-- `Manager.replayWAL`: fold the callback over the replayed records starting
from the empty queue map. -/
def replayWAL (recs : List WalRecord) : ManagerState :=
  recs.foldl applyReplayRecord []

/-- `ENQUEUE` record for job `j1` on queue `q`. -/
def enqRec : WalRecord :=
  { type := 1, queue := "q", jobID := "j1", payload := [1], headers := [],
    priority := 5, tries := 0, maxRetries := 3, eta := 0, leaseID := "", reason := "" }

/-- `ACK` record for the same job. -/
def ackRec : WalRecord :=
  { type := 2, queue := "q", jobID := "j1", payload := [], headers := [],
    priority := 0, tries := 0, maxRetries := 0, eta := 0, leaseID := "L", reason := "" }

/-- C1 (code bug).  Replaying `ENQUEUE j1` followed by `ACK j1` leaves `j1`
in the ready structure: the replay `ACK` case deletes only from the in-flight
map, and since leases are never logged, a job that was enqueued and acked
lives in `ready` at replay time — so an acknowledged (completed) job
resurrects as READY after restart, where the spec requires the `ACK` replay
step to remove the job from wherever it is present. -/
theorem replay_ack_leaves_job_in_ready :
    "j1" ∈ idsOf ((getQueue (replayWAL [enqRec, ackRec]) "q").getD emptyQState).ready.heap ∧
    ((getQueue (replayWAL [enqRec, ackRec]) "q").getD emptyQState).inflight = [] ∧
    ((getQueue (replayWAL [enqRec, ackRec]) "q").getD emptyQState).dlq = [] := by decide

/-- Success path of `Manager.Nack` (`queue.go`) for a located in-flight job
with a matching lease, from the increment of `Tries` on: bump the try counter
(a `uint32`), set the ETA to now plus the computed backoff, clear the lease
fields, then — depending on `ShouldRetry` — append a `NACK` record and move
the job back to ready with status READY, or append a `NACK` record and move
it to the dead-letter map with status DLQ.  The jittered backoff delay is
passed in explicitly; the WAL record of the taken branch is returned. -/
def nackOnQueue (q : QState) (job : Job) (now backoffDelay : Int) (reason : String) :
    QState × WalRecord :=
  let t1 := (job.tries + 1) % 4294967296
  let j1 : Job :=
    { job with
      tries := t1, eta := now + backoffDelay, leaseID := "",
      leaseDeadline := none }
  if j1.shouldRetry then
    ({ q with
        inflight := eraseKey q.inflight job.id,
        ready := q.ready.push { j1 with status := .ready } },
     { type := 3, queue := job.queue, jobID := job.id, payload := [], headers := [],
       priority := job.priority, tries := t1, maxRetries := job.maxRetries,
       eta := now + backoffDelay, leaseID := job.leaseID, reason := reason })
  else
    ({ q with
        inflight := eraseKey q.inflight job.id,
        dlq := insertKey q.dlq job.id { j1 with status := .dlq } },
     { type := 3, queue := job.queue, jobID := job.id, payload := [], headers := [],
       priority := 0, tries := t1, maxRetries := 0, eta := 0,
       leaseID := job.leaseID, reason := reason })

/-- In-flight job with one failed try and a two-try ceiling. -/
def nackJob : Job :=
  { baseJob with
    id := "n1", tries := 1, maxRetries := 2, status := .inflight,
    leaseID := "L", leaseDeadline := some 50 }

/-- Queue state holding only that in-flight job. -/
def qNack : QState := { ready := PriorityQueue.empty, inflight := [("n1", nackJob)], dlq := [] }

/-- C2 (code bug).  `ShouldRetry` is `Tries < MaxRetries` (strict), so a nack
that brings the attempt count exactly to `max_attempts` dead-letters the job:
with `tries = 1` and `max_retries = 2`, the incremented count 2 does not
exceed 2, yet the job lands in the dead-letter map with status DLQ instead of
being re-inserted READY — contradicting the spec rule `DEAD only when
attempts > max_attempts` and the repo's own `TestRetryAndDLQ`, which nacks a
`MaxRetries = 2` job three times and expects the dead-lettering only on the
third. -/
theorem nack_dead_letters_at_max_attempts :
    keysOf (nackOnQueue qNack nackJob 100 10 "boom").1.dlq = ["n1"] ∧
    (nackOnQueue qNack nackJob 100 10 "boom").1.inflight = [] ∧
    idsOf (nackOnQueue qNack nackJob 100 10 "boom").1.ready.heap = [] ∧
    (lookupKey (nackOnQueue qNack nackJob 100 10 "boom").1.dlq "n1").map Job.status =
      some JobStatus.dlq ∧
    (nackJob.tries + 1 = 2 ∧ nackJob.maxRetries = 2) := by decide

/-- Primitive effects of the lease reclaimer, in program order. -/
inductive Effect where
  | mutateState
  | walAppend (r : WalRecord)
  deriving DecidableEq, Repr

/-- Processing of one expired-lease job inside `Manager.checkLeaseTimeouts`
(`queue.go`), with its effect trace: bump `Tries`, compute the new ETA, clear
the lease; on the retry path the code mutates the queue (delete from
in-flight, push to ready) and only afterwards writes the `REQUEUE` record,
ignoring the write's error; on the dead-letter path it mutates the queue and
writes no WAL record at all. -/
def reclaimExpired (q : QState) (job : Job) (now backoffDelay : Int) :
    QState × List Effect :=
  let t1 := (job.tries + 1) % 4294967296
  let j1 : Job :=
    { job with
      tries := t1, eta := now + backoffDelay, leaseID := "",
      leaseDeadline := none }
  if j1.shouldRetry then
    ({ q with
        inflight := eraseKey q.inflight job.id,
        ready := q.ready.push { j1 with status := .ready } },
     [Effect.mutateState,
      Effect.walAppend
        { type := 4, queue := job.queue, jobID := job.id, payload := [],
          headers := [], priority := job.priority, tries := t1,
          maxRetries := job.maxRetries, eta := now + backoffDelay, leaseID := "",
          reason := "" }])
  else
    ({ q with
        inflight := eraseKey q.inflight job.id,
        dlq := insertKey q.dlq job.id { j1 with status := .dlq } },
     [Effect.mutateState])

/-- In-flight job whose lease deadline (5) has passed and whose tries already
reached the ceiling. -/
def expiredJob : Job :=
  { baseJob with
    id := "e1", tries := 2, maxRetries := 2, status := .inflight,
    leaseID := "L", leaseDeadline := some 5 }

/-- In-flight job whose lease deadline has passed with tries to spare. -/
def expiredRetryJob : Job :=
  { baseJob with
    id := "e2", tries := 0, maxRetries := 2, status := .inflight,
    leaseID := "L2", leaseDeadline := some 5 }

/-- Queue state holding the two expired in-flight jobs. -/
def qExpired : QState :=
  { ready := PriorityQueue.empty,
    inflight := [("e1", expiredJob), ("e2", expiredRetryJob)], dlq := [] }

/-- C3 (code bug).  The reclaimer does not write-ahead: for an expired lease
on the dead-letter path the queue state changes (the job moves to the
dead-letter map) with an empty effect trace apart from the mutation — no WAL
record describes the transition; on the retry path the first effect is the
in-memory mutation and the `REQUEUE` append comes after it (its error
ignored), so in-memory state is mutated before — not after — a successful
WAL write. -/
theorem reclaimer_mutates_without_preceding_wal :
    (reclaimExpired qExpired expiredJob 10 7).2 = [Effect.mutateState] ∧
    keysOf (reclaimExpired qExpired expiredJob 10 7).1.dlq = ["e1"] ∧
    (reclaimExpired qExpired expiredJob 10 7).1 ≠ qExpired ∧
    (reclaimExpired qExpired expiredRetryJob 10 7).2.head? = some Effect.mutateState ∧
    (expiredJob.leaseDeadline = some 5 ∧ (5 : Int) < 10) := by decide

/-- External effects consumed by `Manager.Enqueue`: the idempotency-store
lookup result (`GetIdempotencyKey`: failure, a previously stored job id, or
nothing), the rate limiter's decision, the WAL append's success, the
generated UUID and the wall clock. -/
structure EnqueueEnv where
  idemLookup : Except Unit (Option String)
  rateAllowed : Bool
  walOk : Bool
  freshID : String
  now : Int

/-- Failure modes of `Manager.Enqueue`. -/
inductive EnqueueError where
  | idempotencyCheckFailed
  | rateLimited
  | walFailed
  deriving DecidableEq, Repr

/-- `Manager.Enqueue` (`queue.go`): check the idempotency key (an empty key
skips the lookup; a hit returns the stored id unchanged), consult the rate
limiter, build the job — `eta = now` plus the delay when positive, `tries =
0` — append the `ENQUEUE` record, and insert the job into the queue's ready
structure.  No branch examines `priority`: every `uint8` value flows through
unvalidated. -/
def enqueue (env : EnqueueEnv) (st : ManagerState) (queueName : String)
    (payload : List Nat) (headers : List (String × String)) (priority : Nat)
    (delayMs : Int) (retryMaxRetries : Nat) (idempotencyKey : String) :
    Except EnqueueError (String × ManagerState) :=
  match (if idempotencyKey = "" then Except.ok none else env.idemLookup) with
  | .error _ => .error .idempotencyCheckFailed
  | .ok (some existing) => .ok (existing, st)
  | .ok none =>
    if ¬ env.rateAllowed then .error .rateLimited
    else
      let eta := if 0 < delayMs then env.now + delayMs * 1000000 else env.now
      let job : Job :=
        { id := env.freshID, queue := queueName, payload := payload,
          headers := headers, priority := priority, tries := 0,
          maxRetries := retryMaxRetries, eta := eta, leaseID := "",
          leaseDeadline := none, status := .ready, enqueuedAt := env.now }
      if ¬ env.walOk then .error .walFailed
      else
        let q := (getQueue st queueName).getD emptyQState
        .ok (env.freshID, setQueue st queueName { q with ready := q.ready.push job })

/-- `Server.enqueue` (`internal/rest/rest.go`): decode the request, default
`MaxRetries` to 3 when the request leaves it at 0, call `Manager.Enqueue`
with the request's priority verbatim — no validation — and answer 200 on
success, 500 on error. -/
def restEnqueue (env : EnqueueEnv) (st : ManagerState) (queueName : String)
    (payload : List Nat) (headers : List (String × String)) (priority : Nat)
    (delayMs : Int) (reqMaxRetries : Nat) (idemKey : String) : Nat × ManagerState :=
  let mr := if 0 < reqMaxRetries then reqMaxRetries else 3
  match enqueue env st queueName payload headers priority delayMs mr idemKey with
  | .ok p => (200, p.2)
  | .error _ => (500, st)

/-- Environment in which every external dependency succeeds. -/
def okEnv : EnqueueEnv :=
  { idemLookup := .ok none, rateAllowed := true, walOk := true,
    freshID := "f1", now := 1000 }

/-- C9 (code bug).  Neither `Manager.Enqueue` nor the REST handler validates
the priority: an enqueue with priority 200 — far outside the documented
`[0, 9]` range — is accepted (HTTP 200) and creates a READY job carrying
priority 200, where the spec requires an `INVALID_ARGUMENT` rejection and no
job. -/
theorem enqueue_accepts_out_of_range_priority :
    (restEnqueue okEnv [] "q" [1] [] 200 0 0 "").1 = 200 ∧
    idsOf ((getQueue (restEnqueue okEnv [] "q" [1] [] 200 0 0 "").2 "q").getD
      emptyQState).ready.heap = ["f1"] ∧
    (((getQueue (restEnqueue okEnv [] "q" [1] [] 200 0 0 "").2 "q").getD
      emptyQState).ready.heap.map Job.priority = [200] ∧ ¬ 200 ≤ 9) := by decide

end Queue
end RivetQ
